import Mathlib

/-!
Verification of the coordinate-wrapping, split-point, bit-unpacking, mask-flattening
and polygon-snapping utilities of `regionmask/core/utils.py`.

The numpy float arrays of the source are modelled as lists of rationals (`List ℚ`);
machine rounding is idealised but every formula (floored modulo, `np.isclose`
tolerances, round-half-to-even) follows the source and the numpy semantics it calls.
Fallible functions return `Except UtilErr`.
-/

namespace Regionmask

/-- Error conditions raised by the utility functions (Python exception classes are
collapsed to one inductive; the constructor records which failure occurred). -/
inductive UtilErr where
  | cannotInfer
  | duplicates
  | emptyInput
  | splitPoint
  | indexError
  | dtypeError
  | valueError
  | typeError
deriving DecidableEq

/-- Default relative tolerance of `np.isclose`. -/
def np_rtol_default : ℚ := 1 / 100000

/-- Default absolute tolerance of `np.isclose`. -/
def np_atol_default : ℚ := 1 / 100000000

/-- Embedding of `np.isclose(a, b, rtol, atol)`: `|a - b| <= atol + rtol * |b|`
(note the asymmetry: the relative part scales with the second argument). -/
def np_isclose (a b rtol atol : ℚ) : Bool := |a - b| ≤ atol + rtol * |b|

/-- Embedding of `np.mod(x, m)` (floored modulo, sign follows the divisor). -/
def np_mod (x m : ℚ) : ℚ := x - m * ⌊x / m⌋

/-- Embedding of `_wrapAngle360` (utils.py line 75): `np.mod(lon, 360)`. -/
def _wrapAngle360 (lon : List ℚ) : List ℚ := lon.map (fun x => np_mod x 360)

/-- Embedding of `_wrapAngle180` (utils.py line 81): elements with
`lon < -180` or `180 <= lon` are replaced by `wrap360(lon + 180) - 180`. -/
def _wrapAngle180 (lon : List ℚ) : List ℚ :=
  lon.map (fun x => if x < -180 ∨ 180 ≤ x then np_mod (x + 180) 360 - 180 else x)

/-- Round-half-to-even to an integer, the rounding mode of `np.round`. -/
def roundHalfToEven (q : ℚ) : ℤ :=
  if Int.fract q < 1 / 2 then ⌊q⌋
  else if 1 / 2 < Int.fract q then ⌊q⌋ + 1
  else if 2 ∣ ⌊q⌋ then ⌊q⌋ else ⌊q⌋ + 1

/-- Embedding of `np.round(q, 6)`. -/
def np_round6 (q : ℚ) : ℚ := (roundHalfToEven (q * 1000000) : ℚ) / 1000000

/-- Embedding of `np.nanmin` on a nonempty list (no NaN in the rational model). -/
def np_nanmin (l : List ℚ) : ℚ :=
  match l with
  | [] => 0
  | x :: xs => xs.foldl min x

/-- Embedding of `np.nanmax` on a nonempty list (no NaN in the rational model). -/
def np_nanmax (l : List ℚ) : ℚ :=
  match l with
  | [] => 0
  | x :: xs => xs.foldl max x

/-- Embedding of `_is_180` (utils.py line 120): round min and max to 6 decimals,
raise when the rounded min is negative and the rounded max exceeds 180,
otherwise report whether the rounded max is at most 180. -/
def _is_180 (lon_min lon_max : ℚ) : Except UtilErr Bool :=
  let lon_min := np_round6 lon_min
  let lon_max := np_round6 lon_max
  if lon_min < 0 ∧ 180 < lon_max then Except.error UtilErr.cannotInfer
  else Except.ok (lon_max ≤ 180)

/-- The `wrap_lon` argument of `_wrapAngle`: `True` (infer), `180`, or `360`. -/
inductive WrapLon where
  | infer
  | conv180
  | conv360
deriving DecidableEq

/-- Application of the selected wrap convention followed by the uniqueness check
of `_wrapAngle` (utils.py lines 106-117): wrap, then — unless the coordinates are
unstructured — fail when two wrapped longitudes coincide. -/
def wrapAndCheck (lon : List ℚ) (target : ℕ) (is_unstructured : Bool) :
    Except UtilErr (List ℚ) :=
  let wrapped := if target = 180 then _wrapAngle180 lon else _wrapAngle360 lon
  if is_unstructured then Except.ok wrapped
  else if wrapped.Nodup then Except.ok wrapped
  else Except.error UtilErr.duplicates

/-- Embedding of `_wrapAngle` (utils.py line 89): resolve the wrap target
(`wrap_lon is True` infers it from the rounded min/max via `_is_180`,
picking 360 when `_is_180` holds and 180 otherwise), apply it, and check
uniqueness of the wrapped values. -/
def _wrapAngle (lon : List ℚ) (wrap_lon : WrapLon) (is_unstructured : Bool) :
    Except UtilErr (List ℚ) :=
  match wrap_lon with
  | WrapLon.infer =>
    match lon with
    | [] => Except.error UtilErr.emptyInput
    | _ :: _ =>
      match _is_180 (np_nanmin lon) (np_nanmax lon) with
      | Except.error e => Except.error e
      | Except.ok b => wrapAndCheck lon (if b then 360 else 180) is_unstructured
  | WrapLon.conv180 => wrapAndCheck lon 180 is_unstructured
  | WrapLon.conv360 => wrapAndCheck lon 360 is_unstructured

theorem np_mod_360_nonneg (x : ℚ) : 0 ≤ np_mod x 360 := by
  have h := Int.floor_le (x / 360)
  rw [np_mod]
  linarith

theorem np_mod_360_lt (x : ℚ) : np_mod x 360 < 360 := by
  have h := Int.lt_floor_add_one (x / 360)
  rw [np_mod]
  linarith

theorem np_mod_360_eq_self {x : ℚ} (h0 : 0 ≤ x) (h1 : x < 360) : np_mod x 360 = x := by
  have hf : ⌊x / 360⌋ = 0 := by
    rw [Int.floor_eq_zero_iff]
    constructor
    · positivity
    · rw [div_lt_one (by norm_num : (0:ℚ) < 360)]
      simpa using h1
  rw [np_mod, hf]
  push_cast
  ring

theorem np_mod_360_sub_self (x : ℚ) : ∃ k : ℤ, np_mod x 360 - x = 360 * k := by
  exact ⟨-⌊x / 360⌋, by rw [np_mod]; push_cast; ring⟩

/-- The single-element action of `_wrapAngle180`. -/
def wrap180elem (x : ℚ) : ℚ :=
  if x < -180 ∨ 180 ≤ x then np_mod (x + 180) 360 - 180 else x

theorem _wrapAngle180_eq_map (lon : List ℚ) : _wrapAngle180 lon = lon.map wrap180elem := rfl

theorem wrap180elem_mem_Ico (x : ℚ) : -180 ≤ wrap180elem x ∧ wrap180elem x < 180 := by
  rw [wrap180elem]
  split
  · have h0 := np_mod_360_nonneg (x + 180)
    have h1 := np_mod_360_lt (x + 180)
    constructor <;> linarith
  · rename_i h
    push_neg at h
    exact ⟨h.1, h.2⟩

theorem wrap180elem_sub_self (x : ℚ) : ∃ k : ℤ, wrap180elem x - x = 360 * k := by
  rw [wrap180elem]
  split
  · obtain ⟨k, hk⟩ := np_mod_360_sub_self (x + 180)
    exact ⟨k, by linarith⟩
  · exact ⟨0, by simp⟩

/-- C8: `_wrapAngle360` is idempotent with all outputs in `[0, 360)`; all outputs of
`_wrapAngle180` lie in `[-180, 180)`; and `_wrapAngle180 ∘ _wrapAngle360` is,
elementwise, congruent to the input modulo 360. -/
theorem wrapAngle_algebra :
    (∀ s : List ℚ, _wrapAngle360 (_wrapAngle360 s) = _wrapAngle360 s)
    ∧ (∀ s : List ℚ, ∀ x ∈ _wrapAngle360 s, 0 ≤ x ∧ x < 360)
    ∧ (∀ s : List ℚ, ∀ x ∈ _wrapAngle180 s, -180 ≤ x ∧ x < 180)
    ∧ (∀ s : List ℚ, ∀ i : ℕ, ∃ k : ℤ,
        (_wrapAngle180 (_wrapAngle360 s)).getD i 0 - s.getD i 0 = 360 * k) := by
  refine ⟨?_, ?_, ?_, ?_⟩
  · intro s
    rw [_wrapAngle360, _wrapAngle360, List.map_map]
    congr 1
    funext x
    exact np_mod_360_eq_self (np_mod_360_nonneg x) (np_mod_360_lt x)
  · intro s x hx
    rw [_wrapAngle360, List.mem_map] at hx
    obtain ⟨a, -, rfl⟩ := hx
    exact ⟨np_mod_360_nonneg a, np_mod_360_lt a⟩
  · intro s x hx
    rw [_wrapAngle180_eq_map, List.mem_map] at hx
    obtain ⟨a, -, rfl⟩ := hx
    exact wrap180elem_mem_Ico a
  · intro s i
    rw [_wrapAngle180_eq_map, _wrapAngle360, List.map_map]
    rcases h : s.get? i with - | a
    · rw [List.getD_eq_get?, List.getD_eq_get?, List.get?_map, h]
      exact ⟨0, by simp⟩
    · rw [List.getD_eq_get?, List.getD_eq_get?, List.get?_map, h]
      simp only [Option.map_some', Option.getD_some, Function.comp_apply]
      obtain ⟨k1, hk1⟩ := np_mod_360_sub_self a
      obtain ⟨k2, hk2⟩ := wrap180elem_sub_self (np_mod a 360)
      exact ⟨k1 + k2, by push_cast; linarith⟩

/-- Embedding of `np.diff` on a 1-d array: consecutive differences. -/
def np_diff (lon : List ℚ) : List ℚ := (lon.zip lon.tail).map (fun p => p.2 - p.1)

/-- The boolean array `d_lon_not_isclose = ~np.isclose(d_lon[0], d_lon)` shared by
`_equally_spaced_on_split_lon` and `_find_splitpoint` (utils.py lines 210 and 221). -/
def notCloseList (lon : List ℚ) : List Bool :=
  match np_diff lon with
  | [] => []
  | d0 :: ds => (d0 :: ds).map (fun d => ! np_isclose d0 d np_rtol_default np_atol_default)

/-- Index accumulator for `np.argwhere` on a 1-d boolean array. -/
def argwhereAux : List Bool → ℕ → List ℕ
  | [], _ => []
  | b :: t, i => if b then i :: argwhereAux t (i + 1) else argwhereAux t (i + 1)

/-- Embedding of `np.argwhere` on a 1-d boolean array: the list of indices holding
`true`, in increasing order. -/
def np_argwhere (l : List Bool) : List ℕ := argwhereAux l 0

/-- Embedding of `_equally_spaced_on_split_lon` (utils.py line 202): false for fewer
than two elements, otherwise true iff exactly one consecutive difference deviates
from the first one and the deviation is not at the last difference. -/
def _equally_spaced_on_split_lon (lon : List ℚ) : Bool :=
  if lon.length < 2 then false
  else ((notCloseList lon).count true == 1) && !((notCloseList lon).getLastD false)

/-- Embedding of `_find_splitpoint` (utils.py line 216): index the deviating
difference (an empty difference array reproduces the `d_lon[0]` index error);
exactly one deviation is required, and its index is returned offset by one. -/
def _find_splitpoint (lon : List ℚ) : Except UtilErr ℕ :=
  if (np_diff lon).length = 0 then Except.error UtilErr.indexError
  else
    match np_argwhere (notCloseList lon) with
    | [i] => Except.ok (i + 1)
    | _ => Except.error UtilErr.splitPoint

theorem np_diff_length (lon : List ℚ) : (np_diff lon).length = lon.length - 1 := by
  rw [np_diff]
  simp only [List.length_map, List.length_zip, List.length_tail]
  omega

theorem notCloseList_length (lon : List ℚ) :
    (notCloseList lon).length = (np_diff lon).length := by
  rw [notCloseList]
  rcases h : np_diff lon with - | ⟨d0, ds⟩ <;> simp

theorem np_isclose_self (d : ℚ) : np_isclose d d np_rtol_default np_atol_default = true := by
  simp only [np_isclose, decide_eq_true_eq, np_rtol_default, np_atol_default]
  rw [sub_self, abs_zero]
  positivity

theorem argwhereAux_length (l : List Bool) : ∀ s : ℕ,
    (argwhereAux l s).length = l.count true := by
  induction l with
  | nil => intro s; rfl
  | cons b t ih =>
    intro s
    cases b <;> simp [argwhereAux, ih, List.count_cons]

theorem mem_argwhereAux (l : List Bool) : ∀ s j : ℕ,
    j ∈ argwhereAux l s ↔ s ≤ j ∧ j - s < l.length ∧ l.getD (j - s) false = true := by
  induction l with
  | nil => intro s j; simp [argwhereAux]
  | cons b t ih =>
    intro s j
    cases b
    case false =>
      have hred : argwhereAux (false :: t) s = argwhereAux t (s + 1) := rfl
      rw [hred, ih (s + 1) j]
      constructor
      · rintro ⟨h1, h2, h3⟩
        have he : j - s = (j - (s + 1)) + 1 := by omega
        rw [he, List.getD_cons_succ]
        exact ⟨by omega, by simp only [List.length_cons]; omega, h3⟩
      · rintro ⟨h1, h2, h3⟩
        rcases Nat.lt_or_ge j (s + 1) with hj | hj
        · have hj0 : j - s = 0 := by omega
          rw [hj0, List.getD_cons_zero] at h3
          exact absurd h3 (by simp)
        · have he : j - s = (j - (s + 1)) + 1 := by omega
          rw [he, List.getD_cons_succ] at h3
          refine ⟨hj, ?_, h3⟩
          simp only [List.length_cons] at h2 ⊢
          omega
    case true =>
      have hred : argwhereAux (true :: t) s = s :: argwhereAux t (s + 1) := rfl
      rw [hred, List.mem_cons, ih (s + 1) j]
      constructor
      · rintro (rfl | ⟨h1, h2, h3⟩)
        · exact ⟨le_refl _, by simp, by simp⟩
        · have he : j - s = (j - (s + 1)) + 1 := by omega
          rw [he, List.getD_cons_succ]
          exact ⟨by omega, by simp only [List.length_cons]; omega, h3⟩
      · rintro ⟨h1, h2, h3⟩
        rcases Nat.lt_or_ge j (s + 1) with hj | hj
        · left; omega
        · right
          have he : j - s = (j - (s + 1)) + 1 := by omega
          rw [he, List.getD_cons_succ] at h3
          exact ⟨hj, by simp only [List.length_cons] at h2; omega, h3⟩

theorem argwhereAux_nodup (l : List Bool) : ∀ s : ℕ, (argwhereAux l s).Nodup := by
  induction l with
  | nil => intro s; simp [argwhereAux]
  | cons b t ih =>
    intro s
    cases b
    case false =>
      have hred : argwhereAux (false :: t) s = argwhereAux t (s + 1) := rfl
      rw [hred]
      exact ih (s + 1)
    case true =>
      have hred : argwhereAux (true :: t) s = s :: argwhereAux t (s + 1) := rfl
      rw [hred, List.nodup_cons]
      refine ⟨fun hmem => ?_, ih (s + 1)⟩
      rw [mem_argwhereAux] at hmem
      omega

theorem np_argwhere_nodup (l : List Bool) : (np_argwhere l).Nodup := argwhereAux_nodup l 0

theorem mem_np_argwhere (l : List Bool) (j : ℕ) :
    j ∈ np_argwhere l ↔ j < l.length ∧ l.getD j false = true := by
  rw [np_argwhere, mem_argwhereAux]
  simp

theorem eq_singleton_of_nodup_of_forall {l : List ℕ} {j : ℕ} (hn : l.Nodup)
    (hj : j ∈ l) (hall : ∀ x ∈ l, x = j) : l = [j] := by
  cases l with
  | nil => exact absurd hj (by simp)
  | cons x t =>
    have hx : x = j := hall x (List.mem_cons_self x t)
    subst hx
    rcases List.eq_nil_or_concat t with ht | ⟨t', y, rfl⟩
    · rw [ht]
    · have hy : y = x := hall y (by simp)
      subst hy
      rw [List.nodup_cons] at hn
      exact absurd (by simp : y ∈ t' ++ [y]) (by simp_all)

theorem np_argwhere_eq_singleton (l : List Bool) (j : ℕ) :
    np_argwhere l = [j] ↔
      (l.count true = 1 ∧ j < l.length ∧ l.getD j false = true) := by
  constructor
  · intro h
    have hc : l.count true = 1 := by
      rw [← argwhereAux_length l 0]
      rw [np_argwhere] at h
      rw [h]
      rfl
    have hj : j ∈ np_argwhere l := by rw [h]; simp
    rw [mem_np_argwhere] at hj
    exact ⟨hc, hj.1, hj.2⟩
  · rintro ⟨hc, hlen, hget⟩
    refine eq_singleton_of_nodup_of_forall (argwhereAux_nodup l 0) ?_ ?_
    · rw [mem_np_argwhere]; exact ⟨hlen, hget⟩
    · intro x hx
      have h1 : (np_argwhere l).length = 1 := by
        rw [np_argwhere, argwhereAux_length]; exact hc
      obtain ⟨a, ha⟩ := List.length_eq_one.mp h1
      have hxa : x = a := by rw [ha] at hx; simpa using hx
      have hja : j = a := by
        have : j ∈ np_argwhere l := by rw [mem_np_argwhere]; exact ⟨hlen, hget⟩
        rw [ha] at this; simpa using this
      rw [hxa, hja]

theorem getLastD_eq_getD (l : List Bool) (d : Bool) :
    l.getLastD d = l.getD (l.length - 1) d := by
  rw [List.getLastD_eq_getLast?, List.getLast?_eq_get?, List.getD_eq_get?]

theorem count_eq_np_argwhere_length (l : List Bool) :
    l.count true = (np_argwhere l).length := by
  rw [np_argwhere, argwhereAux_length]

theorem find_splitpoint_eq_error_iff (lon : List ℚ) (h : 2 ≤ lon.length) :
    _find_splitpoint lon = Except.error UtilErr.splitPoint ↔
      (notCloseList lon).count true ≠ 1 := by
  have hd : ¬ (np_diff lon).length = 0 := by rw [np_diff_length]; omega
  rw [_find_splitpoint, if_neg hd]
  rcases hA : np_argwhere (notCloseList lon) with - | ⟨x, - | ⟨y, t⟩⟩ <;>
    simp [count_eq_np_argwhere_length, hA]

/-- C4: `_find_splitpoint` returns the index of the single deviating consecutive
difference offset by one (so it maps `[0,10,20,-170,-160]` to `3`), and it raises
the split-point failure exactly when the number of deviating differences is not one
— in particular on a fully uniform sequence. -/
theorem find_splitpoint_spec :
    _find_splitpoint [0, 10, 20, -170, -160] = Except.ok 3
    ∧ (∀ lon : List ℚ, 2 ≤ lon.length →
        (_find_splitpoint lon = Except.error UtilErr.splitPoint ↔
          (notCloseList lon).count true ≠ 1))
    ∧ (∀ (lon : List ℚ) (i : ℕ), _find_splitpoint lon = Except.ok i →
        1 ≤ i ∧ (notCloseList lon).getD (i - 1) false = true
          ∧ ∀ j, j < (notCloseList lon).length →
              (notCloseList lon).getD j false = true → j = i - 1)
    ∧ (∀ lon : List ℚ, 2 ≤ lon.length →
        (∀ d ∈ np_diff lon, d = (np_diff lon).getD 0 0) →
        _find_splitpoint lon = Except.error UtilErr.splitPoint) := by
  refine ⟨?_, fun lon h => find_splitpoint_eq_error_iff lon h, ?_, ?_⟩
  · norm_num [_find_splitpoint, notCloseList, np_diff, np_isclose, np_rtol_default,
      np_atol_default, np_argwhere, argwhereAux]
  · intro lon i hok
    rw [_find_splitpoint] at hok
    by_cases hd : (np_diff lon).length = 0
    · rw [if_pos hd] at hok
      simp at hok
    · rw [if_neg hd] at hok
      rcases hA : np_argwhere (notCloseList lon) with - | ⟨i0, - | ⟨y, t⟩⟩ <;>
        rw [hA] at hok
      · simp at hok
      · have hi : i = i0 + 1 := by
          simp only [Except.ok.injEq] at hok
          omega
        obtain ⟨hc, hlen, hget⟩ := (np_argwhere_eq_singleton _ _).mp hA
        subst hi
        refine ⟨by omega, by simpa using hget, ?_⟩
        intro j hj hjt
        have hjmem : j ∈ np_argwhere (notCloseList lon) :=
          (mem_np_argwhere _ _).mpr ⟨hj, hjt⟩
        rw [hA] at hjmem
        have : j = i0 := by simpa using hjmem
        omega
      · simp at hok
  · intro lon hlen hall
    rw [find_splitpoint_eq_error_iff lon hlen]
    suffices h : (notCloseList lon).count true = 0 by omega
    rw [List.count_eq_zero]
    intro hmem
    rcases hd : np_diff lon with - | ⟨d0, ds⟩
    · rw [notCloseList, hd] at hmem
      simp at hmem
    · rw [notCloseList, hd] at hmem
      rw [List.mem_map] at hmem
      obtain ⟨d, hdmem, hdeq⟩ := hmem
      have hd0 : d = d0 := by
        have := hall d (by rw [hd]; exact hdmem)
        rw [hd, List.getD_cons_zero] at this
        exact this
      rw [hd0, np_isclose_self] at hdeq
      exact absurd hdeq (by simp)

/-- C6: `_equally_spaced_on_split_lon` is true exactly when the sequence has at
least two elements and exactly one consecutive difference deviates from the first
difference, with that deviation not at the very last difference. -/
theorem equally_spaced_on_split_lon_spec :
    ∀ lon : List ℚ, _equally_spaced_on_split_lon lon = true ↔
      (2 ≤ lon.length ∧
        ∃ j, j + 1 < (notCloseList lon).length ∧ (notCloseList lon).getD j false = true ∧
          ∀ k, k < (notCloseList lon).length → (notCloseList lon).getD k false = true →
            k = j) := by
  intro lon
  rw [_equally_spaced_on_split_lon]
  by_cases h2 : lon.length < 2
  · rw [if_pos h2]
    simp only [Bool.false_eq_true, false_iff]
    rintro ⟨hlen, -⟩
    omega
  · rw [if_neg h2]
    push_neg at h2
    rw [Bool.and_eq_true, beq_iff_eq, Bool.not_eq_true']
    constructor
    · rintro ⟨hc, hlast⟩
      refine ⟨h2, ?_⟩
      have h1 : (np_argwhere (notCloseList lon)).length = 1 := by
        rw [← count_eq_np_argwhere_length]; exact hc
      obtain ⟨a, ha⟩ := List.length_eq_one.mp h1
      obtain ⟨-, halen, haget⟩ := (np_argwhere_eq_singleton _ _).mp ha
      refine ⟨a, ?_, haget, ?_⟩
      · have hL : (notCloseList lon).getD ((notCloseList lon).length - 1) false = false := by
          rw [← getLastD_eq_getD]; exact hlast
        by_contra hcon
        have hax : a = (notCloseList lon).length - 1 := by omega
        rw [hax, hL] at haget
        exact absurd haget (by simp)
      · intro k hk hkget
        have hkmem : k ∈ np_argwhere (notCloseList lon) :=
          (mem_np_argwhere _ _).mpr ⟨hk, hkget⟩
        rw [ha] at hkmem
        simpa using hkmem
    · rintro ⟨-, j, hj1, hjget, huniq⟩
      have hsing : np_argwhere (notCloseList lon) = [j] := by
        apply eq_singleton_of_nodup_of_forall (np_argwhere_nodup _)
        · exact (mem_np_argwhere _ _).mpr ⟨by omega, hjget⟩
        · intro x hx
          rw [mem_np_argwhere] at hx
          exact huniq x hx.1 hx.2
      constructor
      · rw [count_eq_np_argwhere_length, hsing]
        rfl
      · rw [getLastD_eq_getD]
        by_contra hne
        rw [Bool.not_eq_false] at hne
        have hlast := huniq ((notCloseList lon).length - 1) (by omega) hne
        omega


theorem wrapAndCheck_unstructured (lon : List ℚ) (t : ℕ) :
    wrapAndCheck lon t true =
      Except.ok (if t = 180 then _wrapAngle180 lon else _wrapAngle360 lon) := by
  rw [wrapAndCheck, if_pos rfl]

theorem wrapAndCheck_ok_nodup (lon : List ℚ) (t : ℕ) (res : List ℚ)
    (h : wrapAndCheck lon t false = Except.ok res) : res.Nodup := by
  rw [wrapAndCheck] at h
  simp only [Bool.false_eq_true, if_false] at h
  by_cases hnd : (if t = 180 then _wrapAngle180 lon else _wrapAngle360 lon).Nodup
  · rw [if_pos hnd, Except.ok.injEq] at h
    rw [← h]
    exact hnd
  · rw [if_neg hnd] at h
    exact absurd h (by simp)

theorem wrapAndCheck_structured_dup (lon : List ℚ) (t : ℕ)
    (h : ¬ (if t = 180 then _wrapAngle180 lon else _wrapAngle360 lon).Nodup) :
    wrapAndCheck lon t false = Except.error UtilErr.duplicates := by
  rw [wrapAndCheck]
  simp only [Bool.false_eq_true, if_false]
  exact if_neg h

theorem roundHalfToEven_intCast (n : ℤ) : roundHalfToEven (n : ℚ) = n := by
  rw [roundHalfToEven, Int.fract_intCast, if_pos (by norm_num), Int.floor_intCast]

theorem np_round6_intCast (n : ℤ) : np_round6 (n : ℚ) = n := by
  rw [np_round6]
  have hcast : (n : ℚ) * 1000000 = ((n * 1000000 : ℤ) : ℚ) := by push_cast; ring
  rw [hcast, roundHalfToEven_intCast]
  push_cast
  field_simp

theorem np_round6_neg_ten : np_round6 (-10 : ℚ) = -10 := by
  have h := np_round6_intCast (-10)
  push_cast at h
  exact h

theorem np_round6_ten : np_round6 (10 : ℚ) = 10 := by
  have h := np_round6_intCast 10
  push_cast at h
  exact h

theorem is_180_neg_ten_ten : _is_180 (-10 : ℚ) 10 = Except.ok true := by
  simp only [_is_180, np_round6_neg_ten, np_round6_ten]
  rw [if_neg (by norm_num)]
  simp only [Except.ok.injEq, decide_eq_true_eq]
  norm_num

/-- C1 counterexample: on the input `[-10, 10]` the observed (and rounded) maximum
is `10 ≤ 180`, yet the normalizer with `wrap=True` applies the 360 convention
(returning `[350, 10]`, the `_wrapAngle360` image), not the 180 convention named
by the claim (`_wrapAngle180` would leave `[-10, 10]` unchanged). -/
theorem wrapAngle_infer_counterexample :
    _wrapAngle [-10, 10] WrapLon.infer false = Except.ok [350, 10]
    ∧ _wrapAngle360 [-10, 10] = [350, 10]
    ∧ _wrapAngle180 [-10, 10] = [-10, 10]
    ∧ np_round6 (np_nanmax [-10, 10]) ≤ 180 := by
  have hmin : np_nanmin [(-10 : ℚ), 10] = -10 := by
    rw [np_nanmin]
    norm_num [min_def]
  have hmax : np_nanmax [(-10 : ℚ), 10] = 10 := by
    rw [np_nanmax]
    norm_num [max_def]
  have hw : _wrapAngle360 [(-10 : ℚ), 10] = [350, 10] := by
    norm_num [_wrapAngle360, np_mod]
  refine ⟨?_, hw, ?_, ?_⟩
  · show (match _is_180 (np_nanmin [-10, 10]) (np_nanmax [-10, 10]) with
        | Except.error e => Except.error e
        | Except.ok b => wrapAndCheck [-10, 10] (if b then 360 else 180) false) =
      Except.ok [350, 10]
    rw [hmin, hmax, is_180_neg_ten_ten]
    show wrapAndCheck [-10, 10] 360 false = Except.ok [350, 10]
    rw [wrapAndCheck]
    rw [if_neg (by simp : ¬ (false : Bool) = true)]
    rw [if_neg (by norm_num : ¬ (360 : ℕ) = 180)]
    rw [hw, if_pos (show ([350, 10] : List ℚ).Nodup by norm_num [List.nodup_cons])]
  · rw [_wrapAngle180]
    simp only [List.map_cons, List.map_nil]
    rw [if_neg (by norm_num), if_neg (by norm_num)]
  · rw [hmax, np_round6_ten]
    norm_num

/-- C1 (amended): with `wrap=True` the observed min and max are rounded to six
decimal places; a negative rounded minimum together with a rounded maximum above
180 makes inference fail with the cannot-infer condition; otherwise the target
convention 360 is selected when the rounded maximum is at most 180, and 180
otherwise (the data is wrapped to the opposite convention). -/
theorem wrapAngle_infer_spec :
    (∀ (lon : List ℚ) (u : Bool), lon ≠ [] →
        np_round6 (np_nanmin lon) < 0 → 180 < np_round6 (np_nanmax lon) →
        _wrapAngle lon WrapLon.infer u = Except.error UtilErr.cannotInfer)
    ∧ (∀ (lon : List ℚ) (u : Bool), lon ≠ [] →
        ¬ (np_round6 (np_nanmin lon) < 0 ∧ 180 < np_round6 (np_nanmax lon)) →
        _wrapAngle lon WrapLon.infer u =
          _wrapAngle lon
            (if np_round6 (np_nanmax lon) ≤ 180 then WrapLon.conv360 else WrapLon.conv180)
            u) := by
  constructor
  · intro lon u hne h1 h2
    cases lon with
    | nil => exact absurd rfl hne
    | cons x xs =>
      show (match _is_180 (np_nanmin (x :: xs)) (np_nanmax (x :: xs)) with
          | Except.error e => Except.error e
          | Except.ok b => wrapAndCheck (x :: xs) (if b then 360 else 180) u) =
        Except.error UtilErr.cannotInfer
      have h180 : _is_180 (np_nanmin (x :: xs)) (np_nanmax (x :: xs)) =
          Except.error UtilErr.cannotInfer := by
        simp only [_is_180]
        exact if_pos ⟨h1, h2⟩
      rw [h180]
  · intro lon u hne hcond
    cases lon with
    | nil => exact absurd rfl hne
    | cons x xs =>
      have h180 : _is_180 (np_nanmin (x :: xs)) (np_nanmax (x :: xs)) =
          Except.ok (decide (np_round6 (np_nanmax (x :: xs)) ≤ 180)) := by
        simp only [_is_180]
        exact if_neg hcond
      show (match _is_180 (np_nanmin (x :: xs)) (np_nanmax (x :: xs)) with
          | Except.error e => Except.error e
          | Except.ok b => wrapAndCheck (x :: xs) (if b then 360 else 180) u) = _
      rw [h180]
      by_cases hb : np_round6 (np_nanmax (x :: xs)) ≤ 180
      · rw [if_pos hb, decide_eq_true hb]
        rfl
      · rw [if_neg hb, decide_eq_false hb]
        rfl

/-- C1 witness: the amended inference rule applied at the concrete input
`[-10, 10]` — the rounded max is `10 ≤ 180`, so the 360 convention is chosen. -/
theorem wrapAngle_infer_spec_witness :
    _wrapAngle [-10, 10] WrapLon.infer false = _wrapAngle [-10, 10] WrapLon.conv360 false := by
  have hmin : np_nanmin [(-10 : ℚ), 10] = -10 := by
    rw [np_nanmin]
    norm_num [min_def]
  have hmax : np_nanmax [(-10 : ℚ), 10] = 10 := by
    rw [np_nanmax]
    norm_num [max_def]
  have h := wrapAngle_infer_spec.2 [-10, 10] false (by simp)
    (by rw [hmin, hmax, np_round6_neg_ten, np_round6_ten]; norm_num)
  rw [h, hmax, np_round6_ten, if_pos (by norm_num : (10 : ℚ) ≤ 180)]

theorem is_180_error_eq (mn mx : ℚ) (e : UtilErr)
    (h : _is_180 mn mx = Except.error e) : e = UtilErr.cannotInfer := by
  simp only [_is_180] at h
  split at h
  · rw [Except.error.injEq] at h
    exact h.symm
  · exact absurd h (by simp)

/-- C9: for structured coordinates (is_unstructured false) the normalizer only
returns wrapped values that are pairwise distinct, and a collapse to equal
wrapped values yields the duplicate-coordinate failure; for unstructured
coordinates the duplicate failure never occurs. -/
theorem wrapAngle_duplicates_spec :
    (∀ (lon : List ℚ) (wl : WrapLon) (res : List ℚ),
        _wrapAngle lon wl false = Except.ok res → res.Nodup)
    ∧ (∀ lon : List ℚ, ¬ (_wrapAngle180 lon).Nodup →
        _wrapAngle lon WrapLon.conv180 false = Except.error UtilErr.duplicates)
    ∧ (∀ lon : List ℚ, ¬ (_wrapAngle360 lon).Nodup →
        _wrapAngle lon WrapLon.conv360 false = Except.error UtilErr.duplicates)
    ∧ (∀ (lon : List ℚ) (wl : WrapLon),
        _wrapAngle lon wl true ≠ Except.error UtilErr.duplicates) := by
  refine ⟨?_, ?_, ?_, ?_⟩
  · intro lon wl res h
    cases wl with
    | infer =>
      cases lon with
      | nil =>
        rw [show _wrapAngle [] WrapLon.infer false = Except.error UtilErr.emptyInput
          from rfl] at h
        exact absurd h (by simp)
      | cons x xs =>
        rw [show _wrapAngle (x :: xs) WrapLon.infer false =
            (match _is_180 (np_nanmin (x :: xs)) (np_nanmax (x :: xs)) with
             | Except.error e => Except.error e
             | Except.ok b => wrapAndCheck (x :: xs) (if b then 360 else 180) false)
          from rfl] at h
        rcases h180 : _is_180 (np_nanmin (x :: xs)) (np_nanmax (x :: xs)) with e | b <;>
          rw [h180] at h
        · exact absurd h (by simp)
        · exact wrapAndCheck_ok_nodup _ _ _ h
    | conv180 => exact wrapAndCheck_ok_nodup _ _ _ h
    | conv360 => exact wrapAndCheck_ok_nodup _ _ _ h
  · intro lon hdup
    show wrapAndCheck lon 180 false = _
    apply wrapAndCheck_structured_dup
    rw [if_pos rfl]
    exact hdup
  · intro lon hdup
    show wrapAndCheck lon 360 false = _
    apply wrapAndCheck_structured_dup
    rw [if_neg (by norm_num : ¬ (360 : ℕ) = 180)]
    exact hdup
  · intro lon wl
    cases wl with
    | infer =>
      cases lon with
      | nil =>
        rw [show _wrapAngle [] WrapLon.infer true = Except.error UtilErr.emptyInput
          from rfl]
        simp
      | cons x xs =>
        rw [show _wrapAngle (x :: xs) WrapLon.infer true =
            (match _is_180 (np_nanmin (x :: xs)) (np_nanmax (x :: xs)) with
             | Except.error e => Except.error e
             | Except.ok b => wrapAndCheck (x :: xs) (if b then 360 else 180) true)
          from rfl]
        rcases h180 : _is_180 (np_nanmin (x :: xs)) (np_nanmax (x :: xs)) with e | b
        · show Except.error e ≠ Except.error UtilErr.duplicates
          rw [is_180_error_eq _ _ _ h180]
          simp
        · show wrapAndCheck (x :: xs) (if b = true then 360 else 180) true ≠
            Except.error UtilErr.duplicates
          rw [wrapAndCheck_unstructured]
          simp
    | conv180 =>
      rw [show _wrapAngle lon WrapLon.conv180 true = wrapAndCheck lon 180 true from rfl,
        wrapAndCheck_unstructured]
      simp
    | conv360 =>
      rw [show _wrapAngle lon WrapLon.conv360 true = wrapAndCheck lon 360 true from rfl,
        wrapAndCheck_unstructured]
      simp

/-- Embedding of `_snap_polygon` (utils.py line 304): read the coordinate array,
select the entries of column `xy_col` that are `np.isclose` to `tgt` (given
absolute tolerance, default relative tolerance), overwrite them with `tgt`, and
write the coordinates back. -/
def _snap_polygon (coords : List (ℚ × ℚ)) (tgt atol : ℚ) (xy_col : ℕ) :
    List (ℚ × ℚ) :=
  coords.map (fun p =>
    if xy_col = 0 then
      if np_isclose p.1 tgt np_rtol_default atol then (tgt, p.2) else p
    else
      if np_isclose p.2 tgt np_rtol_default atol then (p.1, tgt) else p)

/-- The `_snap_x` / `_snap_y` callback action of `_snap_polygon_shapely_18` on one
coordinate sequence. -/
def snapList (vals : List ℚ) (tgt atol : ℚ) : List ℚ :=
  vals.map (fun v => if np_isclose v tgt np_rtol_default atol then tgt else v)

/-- Embedding of `_snap_polygon_shapely_18` (utils.py line 321): split the
vertices into the x and y coordinate sequences, apply the snap callback to the
selected column, and recombine the two sequences into vertices. -/
def _snap_polygon_shapely_18 (coords : List (ℚ × ℚ)) (tgt atol : ℚ) (xy_col : ℕ) :
    List (ℚ × ℚ) :=
  let xs := coords.map Prod.fst
  let ys := coords.map Prod.snd
  if xy_col = 0 then (snapList xs tgt atol).zip ys else xs.zip (snapList ys tgt atol)

theorem np_isclose_eq_true_iff (a b rtol atol : ℚ) :
    np_isclose a b rtol atol = true ↔ |a - b| ≤ atol + rtol * |b| := by
  rw [np_isclose]
  exact decide_eq_true_iff

/-- C5: the two version-conditional snapper implementations agree on every
polygon, target, tolerance and axis selector. -/
theorem snap_polygon_versions_agree :
    ∀ (coords : List (ℚ × ℚ)) (tgt atol : ℚ) (xy_col : ℕ),
      _snap_polygon coords tgt atol xy_col = _snap_polygon_shapely_18 coords tgt atol xy_col := by
  intro coords tgt atol xy_col
  rw [_snap_polygon, _snap_polygon_shapely_18]
  by_cases hc : xy_col = 0
  · rw [if_pos hc]
    induction coords with
    | nil => rfl
    | cons p t ih =>
      simp only [List.map_cons, snapList, List.zip_cons_cons] at ih ⊢
      rw [ih, if_pos hc]
      by_cases hp : np_isclose p.1 tgt np_rtol_default atol = true
      · rw [if_pos hp, if_pos hp]
      · rw [if_neg hp, if_neg hp]
  · rw [if_neg hc]
    induction coords with
    | nil => rfl
    | cons p t ih =>
      simp only [List.map_cons, snapList, List.zip_cons_cons] at ih ⊢
      rw [ih, if_neg hc]
      by_cases hp : np_isclose p.2 tgt np_rtol_default atol = true
      · rw [if_pos hp, if_pos hp]
      · rw [if_neg hp, if_neg hp]

/-- C2 counterexample: snapping to `-90` with `atol = 1e-6` modifies the vertex
`y = -89.9995`, which is farther than `1e-6` from `-90` (the effective numpy
tolerance is `atol + rtol * |target|` with the default `rtol = 1e-5`). -/
theorem snap_polygon_counterexample :
    _snap_polygon [(0, -179999/2000)] (-90) (1/1000000) 1 = [(0, -90)]
    ∧ ¬ |(-179999/2000 : ℚ) - (-90)| ≤ 1/1000000 := by
  constructor
  · rw [_snap_polygon]
    simp only [List.map_cons, List.map_nil]
    rw [if_neg (by norm_num : ¬ (1 : ℕ) = 0),
      if_pos (show np_isclose (-179999/2000 : ℚ) (-90) np_rtol_default (1/1000000) = true by
        norm_num [np_isclose, np_rtol_default]
        rw [abs_of_pos (by norm_num : (0 : ℚ) < 1/2000)]
        norm_num)]
  · norm_num
    rw [abs_of_pos (by norm_num : (0 : ℚ) < 1/2000)]
    norm_num

/-- C2 (amended): the snapper rewrites exactly those vertices whose selected-axis
coordinate `c` satisfies the numpy closeness test `|c - target| <= atol +
rtol * |target|` with the default `rtol = 1e-5` (not a purely absolute `atol`
test) to exactly the target, leaves every other vertex unchanged and preserves
the number of vertices; with target `-90` and `atol = 1e-6` the vertex
`y = -89.9999995` becomes exactly `-90` and `y = -89.9` is unchanged. -/
theorem snap_polygon_spec :
    (∀ (coords : List (ℚ × ℚ)) (tgt atol : ℚ) (xy_col : ℕ),
        (_snap_polygon coords tgt atol xy_col).length = coords.length)
    ∧ (∀ (coords : List (ℚ × ℚ)) (tgt atol : ℚ) (i : ℕ) (p : ℚ × ℚ),
        coords.get? i = some p →
        (|p.2 - tgt| ≤ atol + np_rtol_default * |tgt| →
            (_snap_polygon coords tgt atol 1).get? i = some (p.1, tgt))
        ∧ (¬ |p.2 - tgt| ≤ atol + np_rtol_default * |tgt| →
            (_snap_polygon coords tgt atol 1).get? i = some p))
    ∧ (∀ (coords : List (ℚ × ℚ)) (tgt atol : ℚ) (i : ℕ) (p : ℚ × ℚ),
        coords.get? i = some p →
        (|p.1 - tgt| ≤ atol + np_rtol_default * |tgt| →
            (_snap_polygon coords tgt atol 0).get? i = some (tgt, p.2))
        ∧ (¬ |p.1 - tgt| ≤ atol + np_rtol_default * |tgt| →
            (_snap_polygon coords tgt atol 0).get? i = some p))
    ∧ _snap_polygon [(0, -179999999/2000000)] (-90) (1/1000000) 1 = [(0, -90)]
    ∧ _snap_polygon [(0, -899/10)] (-90) (1/1000000) 1 = [(0, -899/10)] := by
  refine ⟨?_, ?_, ?_, ?_, ?_⟩
  · intro coords tgt atol xy_col
    rw [_snap_polygon, List.length_map]
  · intro coords tgt atol i p hp
    rw [_snap_polygon]
    rw [List.get?_map, hp, Option.map_some']
    rw [if_neg (by norm_num : ¬ (1 : ℕ) = 0)]
    constructor
    · intro h
      rw [if_pos ((np_isclose_eq_true_iff _ _ _ _).mpr h)]
    · intro h
      rw [if_neg (fun hc => h ((np_isclose_eq_true_iff _ _ _ _).mp hc))]
  · intro coords tgt atol i p hp
    rw [_snap_polygon]
    rw [List.get?_map, hp, Option.map_some']
    rw [if_pos rfl]
    constructor
    · intro h
      rw [if_pos ((np_isclose_eq_true_iff _ _ _ _).mpr h)]
    · intro h
      rw [if_neg (fun hc => h ((np_isclose_eq_true_iff _ _ _ _).mp hc))]
  · rw [_snap_polygon]
    simp only [List.map_cons, List.map_nil]
    rw [if_neg (by norm_num : ¬ (1 : ℕ) = 0),
      if_pos (show np_isclose (-179999999/2000000 : ℚ) (-90) np_rtol_default (1/1000000) = true by
        norm_num [np_isclose, np_rtol_default]
        rw [abs_of_pos (by norm_num : (0 : ℚ) < 1/2000000)]
        norm_num)]
  · rw [_snap_polygon]
    simp only [List.map_cons, List.map_nil]
    rw [if_neg (by norm_num : ¬ (1 : ℕ) = 0),
      if_neg (show ¬ np_isclose (-899/10 : ℚ) (-90) np_rtol_default (1/1000000) = true by
        norm_num [np_isclose, np_rtol_default]
        rw [abs_of_pos (by norm_num : (0 : ℚ) < 1/10)]
        norm_num)]

/-- C2 witness: the amended pointwise rule applied at a concrete vertex list. -/
theorem snap_polygon_spec_witness :
    (_snap_polygon [((1 : ℚ), (5 : ℚ))] 5 1 1).get? 0 = some (1, 5) := by
  have h := (snap_polygon_spec.2.1 [((1 : ℚ), (5 : ℚ))] 5 1 0 (1, 5) rfl).1
  exact h (by
    rw [sub_self, abs_zero, abs_of_pos (by norm_num : (0 : ℚ) < 5)]
    norm_num [np_rtol_default])

/-- A numpy array as passed to `unpackbits`: integer dtype (non-negative values in
this model; the source leaves negative inputs unspecified) or floating dtype. -/
inductive NpNumbers where
  | ints (data : List ℕ)
  | floats (data : List ℚ)

/-- Embedding of `unpackbits` (utils.py line 248): reject floating dtype, then
bitwise-and every element against the masks `2 ^ k` for `k < num_bits` and record
whether the result is nonzero. -/
def unpackbits (numbers : NpNumbers) (num_bits : ℕ) :
    Except UtilErr (List (List Bool)) :=
  match numbers with
  | NpNumbers.floats _ => Except.error UtilErr.dtypeError
  | NpNumbers.ints data =>
      Except.ok (data.map (fun n => (List.range num_bits).map (fun k => n &&& 2 ^ k != 0)))

theorem and_two_pow_ne_zero (n k : ℕ) : (n &&& 2 ^ k != 0) = n.testBit k := by
  rw [Nat.and_two_pow]
  cases h : n.testBit k
  · simp
  · have h2 : 0 < 2 ^ k := Nat.pos_pow_of_pos k (by norm_num)
    simp [Nat.pos_iff_ne_zero.mp h2]

/-- C7: `unpackbits` on an integer array yields one boolean row per element, each
of length `num_bits`, whose entry `k` is bit `k` of the element (bit 0 least
significant); `unpackbits([5], 4)` gives `[[true, false, true, false]]`; a
floating dtype array is rejected with the dtype failure. -/
theorem unpackbits_spec :
    (∀ (data : List ℕ) (num_bits : ℕ) (out : List (List Bool)),
        unpackbits (NpNumbers.ints data) num_bits = Except.ok out →
        out.length = data.length
        ∧ ∀ i, i < data.length →
            (out.getD i []).length = num_bits
            ∧ ∀ k, k < num_bits → (out.getD i []).getD k false = (data.getD i 0).testBit k)
    ∧ unpackbits (NpNumbers.ints [5]) 4 = Except.ok [[true, false, true, false]]
    ∧ (∀ (fdata : List ℚ) (num_bits : ℕ),
        unpackbits (NpNumbers.floats fdata) num_bits = Except.error UtilErr.dtypeError) := by
  refine ⟨?_, rfl, fun fdata num_bits => rfl⟩
  intro data num_bits out hok
  rw [unpackbits, Except.ok.injEq] at hok
  subst hok
  refine ⟨by rw [List.length_map], ?_⟩
  intro i hi
  rcases hdi : data.get? i with - | v
  · rw [List.get?_eq_none] at hdi
    omega
  · have hrow : ((data.map
        (fun n => (List.range num_bits).map (fun k => n &&& 2 ^ k != 0))).getD i []) =
        (List.range num_bits).map (fun k => v &&& 2 ^ k != 0) := by
      rw [List.getD_eq_get?, List.get?_map, hdi, Option.map_some', Option.getD_some]
    have hv : data.getD i 0 = v := by rw [List.getD_eq_get?, hdi, Option.getD_some]
    rw [hrow, hv]
    refine ⟨by rw [List.length_map, List.length_range], ?_⟩
    intro k hk
    rw [List.getD_eq_get?, List.get?_map, List.get?_range hk, Option.map_some',
      Option.getD_some, and_two_pow_ne_zero]

/-- C7 witness: the row/bit characterization applied at the array `[5]` with four
bits (bit 2 of 5 is set). -/
theorem unpackbits_spec_witness :
    (([[true, false, true, false]] : List (List Bool)).getD 0 []).getD 2 false =
      (([5] : List ℕ).getD 0 0).testBit 2 :=
  ((unpackbits_spec.1 [5] 4 [[true, false, true, false]] rfl).2 0 (by decide)).2
    2 (by decide)

/-- Value of one region layer (boolean grid, row-major) at cell (y, x). -/
def layerAt (g : List (List Bool)) (y x : ℕ) : Bool := (g.getD y []).getD x false

/-- Number of regions containing cell (y, x): the per-cell value of
`mask_3D.sum("region")`. -/
def cellCount (regions : List (ℤ × List (List Bool))) (y x : ℕ) : ℕ :=
  (regions.filter (fun r => layerAt r.2 y x)).length

/-- Whether any region contains cell (y, x): the per-cell value of
`mask_3D.any("region")`. -/
def cellAny (regions : List (ℤ × List (List Bool))) (y x : ℕ) : Bool :=
  regions.any (fun r => layerAt r.2 y x)

/-- Per-cell value of `(mask_3D * mask_3D.region).sum("region")`. -/
def cellSum (regions : List (ℤ × List (List Bool))) (y x : ℕ) : ℤ :=
  (regions.map (fun r => if layerAt r.2 y x then r.1 else 0)).sum

/-- Embedding of `flatten_3D_mask` (utils.py line 265) on an `ny × nx` grid, with
the 3D mask given as one (region id, boolean grid) pair per region. The first
component records whether the overlap warning is emitted (some cell in more than
one region); the second is the flattened grid: the per-cell sum of mask times
region id, with cells belonging to no region set to the missing value `none`
(the model of the NaN introduced by `.where`). -/
def flatten_3D_mask (regions : List (ℤ × List (List Bool))) (ny nx : ℕ) :
    Bool × List (List (Option ℤ)) :=
  ((List.range ny).any (fun y => (List.range nx).any (fun x => 1 < cellCount regions y x)),
   (List.range ny).map (fun y => (List.range nx).map (fun x =>
     if cellAny regions y x then some (cellSum regions y x) else none)))

theorem getD_map_range {α : Type} (f : ℕ → α) (n i : ℕ) (d : α) (h : i < n) :
    ((List.range n).map f).getD i d = f i := by
  rw [List.getD_eq_get?, List.get?_map, List.get?_range h, Option.map_some',
    Option.getD_some]

theorem flatten_3D_mask_cell (regions : List (ℤ × List (List Bool))) (ny nx y x : ℕ)
    (hy : y < ny) (hx : x < nx) :
    ((flatten_3D_mask regions ny nx).2.getD y []).getD x none =
      (if cellAny regions y x then some (cellSum regions y x) else none) := by
  show (((List.range ny).map (fun y => (List.range nx).map (fun x =>
      if cellAny regions y x then some (cellSum regions y x) else none))).getD y
        []).getD x none = _
  rw [getD_map_range _ _ _ _ hy, getD_map_range _ _ _ _ hx]

theorem cellSum_eq_filter_sum (regions : List (ℤ × List (List Bool))) (y x : ℕ) :
    cellSum regions y x =
      ((regions.filter (fun r => layerAt r.2 y x)).map Prod.fst).sum := by
  induction regions with
  | nil => rfl
  | cons r t ih =>
    rw [cellSum, List.map_cons, List.sum_cons, List.filter_cons]
    cases h : layerAt r.2 y x
    · simp only [if_neg (show ¬ (false = true) by simp), zero_add]
      exact ih
    · simp only [if_pos (rfl : true = true), List.map_cons, List.sum_cons]
      exact congrArg (r.1 + ·) ih

/-- C3: the flattened 2D mask holds, at every cell belonging to at least one
region, the sum over regions of (mask value times region identifier) — in
particular exactly the owning region's identifier when the cell lies in exactly
one region; cells in no region receive the missing value, not zero; and a cell
lying in the two regions 2 and 3 yields 5 with the overlap warning raised while
the result is still produced. -/
theorem flatten_3D_mask_spec :
    (∀ (regions : List (ℤ × List (List Bool))) (ny nx y x : ℕ), y < ny → x < nx →
        cellAny regions y x = true →
        ((flatten_3D_mask regions ny nx).2.getD y []).getD x none =
          some (cellSum regions y x))
    ∧ (∀ (regions : List (ℤ × List (List Bool))) (ny nx y x : ℕ)
        (rg : ℤ × List (List Bool)), y < ny → x < nx →
        regions.filter (fun r => layerAt r.2 y x) = [rg] →
        ((flatten_3D_mask regions ny nx).2.getD y []).getD x none = some rg.1)
    ∧ (∀ (regions : List (ℤ × List (List Bool))) (ny nx y x : ℕ), y < ny → x < nx →
        cellAny regions y x = false →
        ((flatten_3D_mask regions ny nx).2.getD y []).getD x none = none)
    ∧ flatten_3D_mask [(2, [[true]]), (3, [[true]])] 1 1 = (true, [[some 5]]) := by
  refine ⟨?_, ?_, ?_, ?_⟩
  · intro regions ny nx y x hy hx hany
    rw [flatten_3D_mask_cell _ _ _ _ _ hy hx, if_pos hany]
  · intro regions ny nx y x rg hy hx hfil
    have hany : cellAny regions y x = true := by
      rw [cellAny, List.any_eq_true]
      have hrg : rg ∈ regions.filter (fun r => layerAt r.2 y x) := by
        rw [hfil]
        simp
      rw [List.mem_filter] at hrg
      exact ⟨rg, hrg.1, hrg.2⟩
    rw [flatten_3D_mask_cell _ _ _ _ _ hy hx, if_pos hany, cellSum_eq_filter_sum, hfil]
    simp
  · intro regions ny nx y x hy hx hany
    rw [flatten_3D_mask_cell _ _ _ _ _ hy hx, if_neg (by rw [hany]; simp)]
  · rfl

/-- C3 witness: a cell covered by exactly one region (identifier 7) receives 7. -/
theorem flatten_3D_mask_spec_witness :
    ((flatten_3D_mask [((7 : ℤ), [[true]])] 1 1).2.getD 0 []).getD 0 none = some 7 :=
  flatten_3D_mask_spec.2.1 [((7 : ℤ), [[true]])] 1 1 0 0 (7, [[true]])
    (by decide) (by decide) rfl

/-- A geometry as classified by `_flatten_polygons`: a polygon (its vertex list),
a multi-polygon (list of member polygons), or a value of any other type. -/
inductive Geometry where
  | polygon (p : List (ℚ × ℚ))
  | multiPolygon (ps : List (List (ℚ × ℚ)))
  | other
deriving DecidableEq

/-- The element loop of `_flatten_polygons` (utils.py lines 32-42): multi-polygons
contribute their members, polygons themselves; anything else raises a TypeError
under the "raise" policy and is dropped otherwise. -/
def flattenLoop (polygons : List Geometry) (error : String) :
    Except UtilErr (List (List (ℚ × ℚ))) :=
  match polygons with
  | [] => Except.ok []
  | Geometry.multiPolygon ps :: rest => (flattenLoop rest error).map (fun acc => ps ++ acc)
  | Geometry.polygon p :: rest => (flattenLoop rest error).map (fun acc => p :: acc)
  | Geometry.other :: rest =>
      if error = "raise" then Except.error UtilErr.typeError else flattenLoop rest error

/-- Embedding of `_flatten_polygons` (utils.py line 25): validate the error policy
first, then run the element loop. -/
def _flatten_polygons (polygons : List Geometry) (error : String) :
    Except UtilErr (List (List (ℚ × ℚ))) :=
  if error ≠ "raise" ∧ error ≠ "skip" then Except.error UtilErr.valueError
  else flattenLoop polygons error

/-- Specification-side contribution of one geometry to the flattened output. -/
def geomPolys (g : Geometry) : List (List (ℚ × ℚ)) :=
  match g with
  | Geometry.polygon p => [p]
  | Geometry.multiPolygon ps => ps
  | Geometry.other => []

theorem flattenLoop_skip (polygons : List Geometry) :
    flattenLoop polygons "skip" = Except.ok ((polygons.map geomPolys).join) := by
  induction polygons with
  | nil => rfl
  | cons g rest ih =>
    cases g with
    | polygon p =>
      rw [flattenLoop, ih]
      rfl
    | multiPolygon ps =>
      rw [flattenLoop, ih]
      rfl
    | other =>
      rw [flattenLoop, if_neg (by decide), ih]
      rfl

theorem flattenLoop_raise_of_mem (polygons : List Geometry)
    (h : Geometry.other ∈ polygons) :
    flattenLoop polygons "raise" = Except.error UtilErr.typeError := by
  induction polygons with
  | nil => exact absurd h (by simp)
  | cons g rest ih =>
    cases g with
    | polygon p =>
      rw [flattenLoop, ih (by simpa using h)]
      rfl
    | multiPolygon ps =>
      rw [flattenLoop, ih (by simpa using h)]
      rfl
    | other => rw [flattenLoop, if_pos rfl]

theorem flattenLoop_raise_of_not_mem (polygons : List Geometry)
    (h : Geometry.other ∉ polygons) :
    flattenLoop polygons "raise" = Except.ok ((polygons.map geomPolys).join) := by
  induction polygons with
  | nil => rfl
  | cons g rest ih =>
    cases g with
    | polygon p =>
      rw [flattenLoop, ih (fun hm => h (List.mem_cons_of_mem _ hm))]
      rfl
    | multiPolygon ps =>
      rw [flattenLoop, ih (fun hm => h (List.mem_cons_of_mem _ hm))]
      rfl
    | other => exact absurd (List.mem_cons_self _ _) h

/-- C10: `_flatten_polygons` rejects any policy other than "raise" and "skip" with
a ValueError regardless of the geometries; under "raise" it raises a TypeError
exactly when some element is neither polygon nor multi-polygon, otherwise (and
always under "skip", where such elements are dropped) it returns the in-order
concatenation of the polygons and multi-polygon members. -/
theorem flatten_polygons_spec :
    (∀ (polygons : List Geometry) (err : String), err ≠ "raise" → err ≠ "skip" →
        _flatten_polygons polygons err = Except.error UtilErr.valueError)
    ∧ (∀ polygons : List Geometry, Geometry.other ∈ polygons →
        _flatten_polygons polygons "raise" = Except.error UtilErr.typeError)
    ∧ (∀ polygons : List Geometry, Geometry.other ∉ polygons →
        _flatten_polygons polygons "raise" = Except.ok ((polygons.map geomPolys).join))
    ∧ (∀ polygons : List Geometry,
        _flatten_polygons polygons "skip" = Except.ok ((polygons.map geomPolys).join)) := by
  refine ⟨?_, ?_, ?_, ?_⟩
  · intro polygons err h1 h2
    rw [_flatten_polygons, if_pos ⟨h1, h2⟩]
  · intro polygons h
    rw [_flatten_polygons, if_neg (by simp)]
    exact flattenLoop_raise_of_mem polygons h
  · intro polygons h
    rw [_flatten_polygons, if_neg (by simp)]
    exact flattenLoop_raise_of_not_mem polygons h
  · intro polygons
    rw [_flatten_polygons, if_neg (by simp)]
    exact flattenLoop_skip polygons

/-- C10 witness: an unknown policy string is rejected on a concrete input. -/
theorem flatten_polygons_spec_witness :
    _flatten_polygons [Geometry.other] "ignore" = Except.error UtilErr.valueError :=
  flatten_polygons_spec.1 [Geometry.other] "ignore" (by decide) (by decide)

/-- C4 witness: the split-point search fails on the fully uniform sequence
`[0, 10, 20]`. -/
theorem find_splitpoint_spec_witness :
    _find_splitpoint [0, 10, 20] = Except.error UtilErr.splitPoint :=
  find_splitpoint_spec.2.2.2 [0, 10, 20] (by norm_num)
    (by
      intro d hd
      rw [show np_diff [0, 10, 20] = [10, 10] from by norm_num [np_diff]] at hd ⊢
      simp only [List.mem_cons, List.not_mem_nil, or_false] at hd
      rcases hd with h | h <;> simp [h])

/-- C6 witness: the characterization evaluated on `[0, 10, 20, -170, -160]`
(single interior deviation at difference index 2). -/
theorem equally_spaced_on_split_lon_spec_witness :
    2 ≤ ([0, 10, 20, -170, -160] : List ℚ).length
    ∧ ∃ j, j + 1 < (notCloseList [0, 10, 20, -170, -160]).length
        ∧ (notCloseList [0, 10, 20, -170, -160]).getD j false = true
        ∧ ∀ k, k < (notCloseList [0, 10, 20, -170, -160]).length →
            (notCloseList [0, 10, 20, -170, -160]).getD k false = true → k = 2 :=
  by
    have h := (equally_spaced_on_split_lon_spec [0, 10, 20, -170, -160]).mp
      (by norm_num [_equally_spaced_on_split_lon, notCloseList, np_diff, np_isclose,
        np_rtol_default, np_atol_default])
    obtain ⟨hlen, j, hj1, hjget, huniq⟩ := h
    have hnc : notCloseList [0, 10, 20, -170, -160] = [false, false, true, false] := by
      norm_num [notCloseList, np_diff, np_isclose, np_rtol_default, np_atol_default]
    have hj : j = 2 := by
      symm
      apply huniq 2
      · rw [hnc]
        norm_num
      · rw [hnc]
        rfl
    refine ⟨hlen, j, hj1, hjget, ?_⟩
    intro k hk hkget
    rw [huniq k hk hkget, hj]

/-- C8 witness: membership bounds evaluated at the single wrapped value 350. -/
theorem wrapAngle_algebra_witness : (0 : ℚ) ≤ 350 ∧ (350 : ℚ) < 360 :=
  wrapAngle_algebra.2.1 [-10] 350 (by
    rw [show _wrapAngle360 [-10] = [350] from by norm_num [_wrapAngle360, np_mod]]
    simp)

/-- C9 witness: the longitudes 190 and -170 collapse to the same wrapped value
under the 180 convention, so the structured normalizer fails with the
duplicate-coordinate error. -/
theorem wrapAngle_duplicates_spec_witness :
    _wrapAngle [190, -170] WrapLon.conv180 false = Except.error UtilErr.duplicates :=
  wrapAngle_duplicates_spec.2.1 [190, -170] (by
    have h : _wrapAngle180 [190, -170] = [-170, -170] := by
      rw [_wrapAngle180]
      simp only [List.map_cons, List.map_nil]
      rw [if_pos (Or.inr (by norm_num : (180 : ℚ) ≤ 190)), if_neg (by norm_num)]
      norm_num [np_mod]
    rw [h]
    simp [List.nodup_cons])
